import Mathlib

/-!
# Verification of the crambrain hybrid-retrieval and citation pipeline

Shallow embedding, in Lean 4, of the algorithmic core of the crambrain
repository: the lexical (BM25-style) scorer and reciprocal-rank-fusion
engine of `apps/api/src/rag/search.py`, the citation extractor and
grounding scorer of `apps/api/src/rag/answer.py`, and the page chunker of
`apps/api/src/utils/pdf.py`.

Modelling conventions:
* Python strings are Lean `String`s; character-level operations
  (`strip`, `split`, `lower`, `count`, `in`) are defined over the
  underlying `List Char` and model Python's semantics on ASCII text.
* Python `float` scores are modelled as exact rationals `ℚ`; the scores
  that occur (reciprocal ranks, term counts, the grounding formula) are
  small rationals, so ordering and equality agree with IEEE semantics on
  every property proved here except at near-ties, which none of the
  concrete formulas produce.
* A Python `dict` is modelled as an insertion-ordered association list in
  which assigning to an existing key updates it in place and a new key is
  appended (`upsert` below).
* `KeyError`-style failures (a `dict` access to an absent key) are
  modelled with `Option`; a `try/except` block around a computation is
  modelled by pattern-matching the `Option`.
* CPython iterates a `set` in a hash-dependent order.  Where the source
  iterates over `set(a) | set(b)` we therefore take the iteration order
  as an explicit parameter (`keyOrder`), constrained only to enumerate
  the union without duplicates, and prove properties for every such
  order.
-/

namespace CramBrain

/-- ASCII whitespace, as recognised by Python's `str.split()` / `str.strip()`
(the model covers the ASCII subset of Python's Unicode whitespace). -/
def isPySpace (c : Char) : Bool :=
  c = ' ' || c = '\t' || c = '\n' || c = '\r' || c = '\x0b' || c = '\x0c'

/-- Remove trailing whitespace from a character list. -/
def dropTrail (l : List Char) : List Char :=
  (l.reverse.dropWhile isPySpace).reverse

/-- Remove leading and trailing whitespace: Python `str.strip()` on chars. -/
def stripChars (l : List Char) : List Char :=
  dropTrail (l.dropWhile isPySpace)

/-- Python `s.strip()`. -/
def pyStrip (s : String) : String := ⟨stripChars s.data⟩

/-- Python `s.lower()` (character-wise; exact on ASCII). -/
def pyLower (s : String) : String := ⟨s.data.map Char.toLower⟩

/-- Worker for `pySplitWs`: split on whitespace runs, discarding empties. -/
def splitWsAux : List Char → List Char → List String
  | [], acc => if acc.isEmpty then [] else [⟨acc.reverse⟩]
  | c :: cs, acc =>
    if isPySpace c then
      if acc.isEmpty then splitWsAux cs []
      else (⟨acc.reverse⟩ : String) :: splitWsAux cs []
    else splitWsAux cs (c :: acc)

/-- Python `s.split()` (no separator argument): split on runs of
whitespace, never returning empty strings. -/
def pySplitWs (s : String) : List String := splitWsAux s.data []

/-- The ASCII digit character of a decimal digit. -/
def digitChar (d : Nat) : Char := Char.ofNat (48 + d)

/-- Worker for `natDigitsRev`; `fuel` bounds the recursion depth (any
`fuel > n` gives the exact digit list). -/
def natDigitsRevAux : Nat → Nat → List Char
  | 0, _ => []
  | f + 1, n =>
    if n < 10 then [digitChar n]
    else digitChar (n % 10) :: natDigitsRevAux f (n / 10)

/-- Decimal digits of `n`, least significant first. -/
def natDigitsRev (n : Nat) : List Char := natDigitsRevAux (n + 1) n

/-- Python `str(n)` for a non-negative integer. -/
def natRepr (n : Nat) : String := ⟨(natDigitsRev n).reverse⟩

/-- Python `str(i)` for an integer. -/
def intRepr (i : Int) : String :=
  if i < 0 then "-" ++ natRepr i.natAbs else natRepr i.toNat

/-- Boolean list-prefix test (model of Python substring matching at the
head of a string). -/
def listPre : List Char → List Char → Bool
  | [], _ => true
  | _ :: _, [] => false
  | a :: as, b :: bs => a = b && listPre as bs

/-- Python `p in t` (substring containment) over chars. -/
def containsSub (p : List Char) : List Char → Bool
  | [] => p.isEmpty
  | c :: cs => listPre p (c :: cs) || containsSub p cs

/-- Worker for `countFrom`; `fuel` bounds the recursion depth (any
`fuel ≥ t.length` gives the exact count). -/
def countFromAux (p : List Char) : Nat → List Char → Nat
  | 0, _ => 0
  | f + 1, t =>
    match t with
    | [] => 0
    | c :: cs =>
      if listPre p (c :: cs) then 1 + countFromAux p f (cs.drop (p.length - 1))
      else countFromAux p f cs

/-- Python `t.count(p)`: number of non-overlapping occurrences of `p` in
`t`, scanning left to right (model for non-empty `p`, which is the only
way the source calls it). -/
def countFrom (p : List Char) (t : List Char) : Nat :=
  countFromAux p t.length t

/-- Python `sep.join(parts)`. -/
def joinSep (sep : String) : List String → String
  | [] => ""
  | [x] => x
  | x :: xs => x ++ sep ++ joinSep sep xs

/-- Insert into a list sorted descending by key `f`, after any element of
equal key (the placement a stable descending sort gives the later
element). -/
def insDesc {α : Type} (f : α → ℚ) (a : α) : List α → List α
  | [] => [a]
  | b :: l => if f b ≤ f a then a :: b :: l else b :: insDesc f a l

/-- Stable sort, descending by key `f`: the model of Python's stable
`list.sort(key=..., reverse=True)` / `sorted(..., reverse=True)`. -/
def sortDesc {α : Type} (f : α → ℚ) : List α → List α
  | [] => []
  | a :: l => insDesc f a (sortDesc f l)

/-! ## Embedding of `apps/api/src/rag/search.py` -/

/-- The metadata dict of a stored chunk, restricted to the keys the
search module reads; a `none` field models an absent dict key (so that
accessing it raises `KeyError`, modelled as `Option` failure). -/
structure FusionMeta where
  doc_id : Option String
  page : Option Int
deriving DecidableEq

/-- A raw search-result dict (`{"text": ..., "metadata": ..., "score": ...}`)
as produced by the Chroma store and consumed by `_bm25_search` and
`_reciprocal_rank_fusion`. -/
structure RawHit where
  text : String
  metadata : FusionMeta
  score : ℚ
deriving DecidableEq

/-- The summed raw term-frequency score `_bm25_search` computes for one
candidate (search.py lines 89–93): starting from 0, for each query term,
add `text.count(term)` when `term in text`. -/
def tfScore (query_terms : List String) (text : String) : Nat :=
  (query_terms.map (fun term =>
    if containsSub term.data text.data then countFrom term.data text.data
    else 0)).sum

/-- `SearchService._bm25_search` (search.py lines 84–101), applied to the
candidate pool the store call returned: lowercase whitespace query terms,
summed term-frequency scoring, exclusion of zero scores, stable
descending sort, truncation to `top_k`.  (The surrounding `try/except`
only guards the external store call, which is outside this model.) -/
def bm25_search (query : String) (pool : List RawHit) (top_k : Nat) : List RawHit :=
  let query_terms := pySplitWs (pyLower query)
  let scored_results := pool.filterMap (fun result =>
    let score := tfScore query_terms (pyLower result.text)
    if 0 < score then some { result with score := (score : ℚ) } else none)
  (sortDesc (fun r => r.score) scored_results).take top_k

/-- The composite key string `f"{doc_id}:{page}"`. -/
def keyStr (d : String) (p : Int) : String := d ++ ":" ++ intRepr p

/-- The composite string key `f"{doc_id}:{page}"` that
`_reciprocal_rank_fusion` derives from a result, or `none` when the
metadata lacks either key (Python raises `KeyError`). -/
def hitKey (h : RawHit) : Option String :=
  match h.metadata.doc_id, h.metadata.page with
  | some d, some p => some (keyStr d p)
  | _, _ => none

/-- Assignment `m[k] = v` on an insertion-ordered dict: an existing key
keeps its position and gets the new value, a new key is appended. -/
def upsert (m : List (String × ℚ)) (k : String) (v : ℚ) : List (String × ℚ) :=
  if m.any (fun kv => kv.1 == k) then
    m.map (fun kv => if kv.1 == k then (k, v) else kv)
  else m ++ [(k, v)]

/-- Dict lookup: `some` value of the first (unique) binding of `k`. -/
def lookup (m : List (String × ℚ)) (k : String) : Option ℚ :=
  (m.find? (fun kv => kv.1 == k)).map Prod.snd

/-- One `for i, result in enumerate(lst): scores[key] = 1.0 / (i + 1)`
loop of `_reciprocal_rank_fusion` (search.py lines 119–129): builds a
rank-score dict, a later duplicate key overwriting an earlier one; fails
exactly when the source would raise `KeyError`. -/
def buildScores : List RawHit → Nat → List (String × ℚ) → Option (List (String × ℚ))
  | [], _, acc => some acc
  | h :: t, i, acc =>
    match hitKey h with
    | none => none
    | some k => buildScores t (i + 1) (upsert acc k (1 / (i + 1 : ℚ)))

/-- Scan a result list for the first entry whose composite key is `k`
(the inner loop of search.py lines 147–153); fails if an entry visited
before a match lacks its metadata keys. -/
def findKeyed : List RawHit → String → Option (Option RawHit)
  | [], _ => some none
  | h :: t, k =>
    match hitKey h with
    | none => none
    | some hk => if hk = k then some (some h) else findKeyed t k

/-- The final loop of `_reciprocal_rank_fusion` (search.py lines
144–153): for each surviving key in rank order, find the first matching
result in `vector_results + bm25_results`, set its `score` to the fused
score, and append it. -/
def collectTop (pool : List RawHit) (combined : List (String × ℚ)) :
    List String → Option (List RawHit)
  | [] => some []
  | k :: ks => do
    let found ← findKeyed pool k
    let rest ← collectTop pool combined ks
    match found with
    | none => pure rest
    | some h => do
      let sc ← lookup combined k
      pure ({ h with score := sc } :: rest)

/-- The body of `_reciprocal_rank_fusion` (the code inside its `try`,
search.py lines 114–155).  `keyOrder` is the order in which CPython
happens to iterate `set(vector_scores.keys()) | set(bm25_scores.keys())`;
it is a parameter because that order is hash-dependent. -/
def rrfBody (keyOrder : List String) (vector_results bm25_results : List RawHit)
    (top_k : Nat) : Option (List RawHit) := do
  let vector_scores ← buildScores vector_results 0 []
  let bm25_scores ← buildScores bm25_results 0 []
  let combined_scores := keyOrder.foldl
    (fun acc key =>
      upsert acc key ((lookup vector_scores key).getD 0 + (lookup bm25_scores key).getD 0))
    []
  let sorted_keys :=
    sortDesc (fun k => (lookup combined_scores k).getD 0) (combined_scores.map Prod.fst)
  collectTop (vector_results ++ bm25_results) combined_scores (sorted_keys.take top_k)

/-- `SearchService._reciprocal_rank_fusion` (search.py lines 107–159):
run the fusion body; if it raises any exception, fall back to
`vector_results[:top_k]`. -/
def reciprocal_rank_fusion (keyOrder : List String)
    (vector_results bm25_results : List RawHit) (top_k : Nat) : List RawHit :=
  match rrfBody keyOrder vector_results bm25_results top_k with
  | some results => results
  | none => vector_results.take top_k

/-- A passage supplied to the answer generator: the fields of a
`RetrievalResult` that `generate_answer` and `_extract_citations`
read. -/
structure Passage where
  doc_id : String
  page : Int
  text : String
  score : ℚ
  bbox_id : Option String
  preview_url : String
  source_url : String
deriving DecidableEq

/-- A citation record, with the fields `_extract_citations` populates. -/
structure Citation where
  doc_id : String
  page : Int
  bbox_id : Option String
  preview_url : String
  source_url : String
  quote : String
deriving DecidableEq

/-- The final answer record (`AnswerResult`). -/
structure AnswerResult where
  answer : String
  citations : List Citation
  grounding_score : ℚ
  retrieval_quality : String
deriving DecidableEq

/-- `int(...)` on a digit string. -/
def digitsToNat (ds : List Char) : Nat :=
  ds.foldl (fun a c => 10 * a + (c.toNat - 48)) 0

/-- Worker for `findMarkers`; `fuel` bounds the recursion depth (any
`fuel ≥ length` gives the exact answer). -/
def findMarkersAux : Nat → List Char → List Nat
  | 0, _ => []
  | _ + 1, [] => []
  | f + 1, c :: cs =>
    if c = '[' then
      match cs with
      | 'p' :: '.' :: rest =>
        (match rest.span Char.isDigit with
          | (ds, ']' :: tail) =>
            if ds.isEmpty then findMarkersAux f cs
            else digitsToNat ds :: findMarkersAux f tail
          | _ => findMarkersAux f cs)
      | _ => findMarkersAux f cs
    else findMarkersAux f cs

/-- `re.findall(r"\[p\.(\d+)\]", answer)` followed by `int(...)` on each
group (answer.py lines 113–119): the page numbers of the `[p.N]` markers
of the answer, in order of appearance, matched left-to-right and
non-overlapping. -/
def findMarkers (answer : String) : List Nat :=
  findMarkersAux answer.data.length answer.data

/-- Quote truncation (answer.py line 130):
`result.text[:200] + "..." if len(result.text) > 200 else result.text`. -/
def mkQuote (text : String) : String :=
  if 200 < text.length then (⟨text.data.take 200⟩ : String) ++ "..." else text

/-- The citation built for marker page `page` from passage `result`
(answer.py lines 124–131). -/
def mkCitation (page : Nat) (result : Passage) : Citation :=
  { doc_id := result.doc_id, page := (page : Int), bbox_id := result.bbox_id,
    preview_url := result.preview_url, source_url := result.source_url,
    quote := mkQuote result.text }

/-- `AnswerService._extract_citations` (answer.py lines 104–135): for
each `[p.N]` marker in order of appearance, emit one citation taken from
the first supplied passage whose page equals `N`; markers with no
matching passage are silently skipped. -/
def extract_citations (answer : String) (search_results : List Passage) : List Citation :=
  (findMarkers answer).filterMap (fun page =>
    (search_results.find? (fun result => result.page == Int.ofNat page)).map
      (mkCitation page))

/-- The fixed refusal answer returned for empty retrieval
(answer.py line 31). -/
def refusalAnswer : String :=
  "I don\x27t have enough context to answer this question. Please upload some documents first."

/-- The `[i+1] Page P: text` context block (answer.py lines 38–42). -/
def buildContext (search_results : List Passage) : String :=
  joinSep "\n\n" (search_results.enum.map (fun ir =>
    "[" ++ natRepr (ir.1 + 1) ++ "] Page " ++ intRepr ir.2.page ++ ": " ++ ir.2.text))

/-- The system prompt (answer.py line 45). -/
def systemPrompt : String :=
  "You are a precise study assistant. Use ONLY the provided CONTEXT from course notes/slides to answer. If the answer isn\x27t in CONTEXT, say you don\x27t know. Every sentence that states a fact must include a source tag like [p.<page>]. Keep answers concise and stepwise when helpful. Never invent citations."

/-- The user prompt (answer.py lines 48–59). -/
def userPrompt (query context : String) : String :=
  "QUESTION: " ++ query ++ "\n\nCONTEXT:\n" ++ context ++
    "\n\nInstructions:\n1. Provide a comprehensive answer based on the excerpts\n2. Use [p.N] format for page citations (e.g., [p.1], [p.5])\n3. Be precise and factual\n4. If the answer cannot be found in the excerpts, say so clearly\n\nAnswer:"

/-- `AnswerService.generate_answer` (answer.py lines 22–102).  The
external LLM call is the oracle `llm`, mapping (system prompt, user
prompt) to the generated answer text; everything else is the code's own
logic: the empty-retrieval refusal, citation extraction, the grounding
score, and the retrieval-quality bucket. -/
def generate_answer (llm : String → String → String) (query : String)
    (search_results : List Passage) : AnswerResult :=
  if search_results.isEmpty then
    { answer := refusalAnswer, citations := [], grounding_score := 0,
      retrieval_quality := "no_results" }
  else
    let context := buildContext search_results
    let answer := llm systemPrompt (userPrompt query context)
    let citations := extract_citations answer search_results
    let citation_count : Nat := citations.length
    let max_possible_citations : Nat := min search_results.length 5
    let grounding_score : ℚ :=
      if 0 < max_possible_citations then
        min 1 ((citation_count : ℚ) / (max_possible_citations : ℚ) * (8 / 10) + 2 / 10)
      else 0
    let avg_score : ℚ :=
      if search_results.isEmpty then 0
      else (search_results.map (fun r => r.score)).sum / (search_results.length : ℚ)
    let retrieval_quality :=
      if 8 / 10 ≤ avg_score then "excellent"
      else if 6 / 10 ≤ avg_score then "good"
      else if 4 / 10 ≤ avg_score then "fair"
      else "poor"
    { answer := answer, citations := citations, grounding_score := grounding_score,
      retrieval_quality := retrieval_quality }

/-! ## Embedding of `apps/api/src/utils/pdf.py` -/

/-- Extracted OCR image data (the `ImageData` dataclass). -/
structure ImageData where
  page : Nat
  bbox : ℚ × ℚ × ℚ × ℚ
  text : String
  confidence : ℚ
deriving DecidableEq

/-- Extracted table data (the `TableData` dataclass). -/
structure TableData where
  page : Nat
  bbox : ℚ × ℚ × ℚ × ℚ
  data : List (List String)
  headers : List String
deriving DecidableEq

/-- The metadata dict attached to a chunk, one shape per chunk type. -/
inductive ChunkMeta
  | textMeta (sentences : List String) (word_count : Nat) (char_count : Nat)
  | imageMeta (bbox : ℚ × ℚ × ℚ × ℚ) (confidence : ℚ) (ocr_text : String)
  | tableMeta (bbox : ℚ × ℚ × ℚ × ℚ) (headers : List String) (rows : Nat)
      (table_data : List (List String))
deriving DecidableEq

/-- A chunk record (`ChunkData`), restricted to the fields
`_create_strict_chunks` populates. -/
structure ChunkData where
  chunk_id : String
  text : String
  page : Nat
  chunk_type : String
  metadata : ChunkMeta
deriving DecidableEq

/-- A sentence-terminator character, the class `[.!?]`. -/
def isSentTerm (c : Char) : Bool := c = '.' || c = '!' || c = '?'

mutual

/-- Worker for `re.split(r"[.!?]+", text)`: accumulate the current piece
until a terminator run starts. -/
def splitRuns : List Char → List Char → List (List Char)
  | [], acc => [acc.reverse]
  | c :: cs, acc =>
    if isSentTerm c then acc.reverse :: skipRun cs else splitRuns cs (c :: acc)

/-- Worker for `re.split(r"[.!?]+", text)`: consume the rest of a
terminator run. -/
def skipRun : List Char → List (List Char)
  | [] => [[]]
  | c :: cs => if isSentTerm c then skipRun cs else splitRuns cs [c]

end

/-- `PDFProcessor._split_into_sentences` (pdf.py lines 313–316):
`re.split(r"[.!?]+", text)`, then strip each piece and drop the empty
ones. -/
def split_into_sentences (text : String) : List String :=
  (splitRuns text.data []).filterMap (fun s =>
    let t := stripChars s
    if t.isEmpty then none else some (⟨t⟩ : String))

/-- `PDFProcessor._format_table_text` (pdf.py lines 318–334): pipe-joined
header line and the first 5 non-empty data rows, newline-joined. -/
def format_table_text (t : TableData) : String :=
  if t.data.isEmpty then ""
  else
    let headerParts : List String :=
      if t.headers.isEmpty then [] else ["Headers: " ++ joinSep " | " t.headers]
    let rowParts : List String :=
      (t.data.take 5).filterMap (fun row =>
        if row.isEmpty then none else some (joinSep " | " row))
    joinSep "\n" (headerParts ++ rowParts)

/-- The text chunk flushed from the running buffer (pdf.py lines 242–252
and 263–273): id from the page number and the running chunk count,
stripped buffer text, sentence/word-count/char-count metadata. -/
def mkTextChunk (page_num : Nat) (nchunks : Nat) (current_chunk : String)
    (chunk_sentences : List String) : ChunkData :=
  { chunk_id := "page_" ++ natRepr (page_num + 1) ++ "_text_" ++ natRepr nchunks,
    text := pyStrip current_chunk,
    page := page_num + 1,
    chunk_type := "text",
    metadata := .textMeta chunk_sentences (pySplitWs current_chunk).length
      current_chunk.length }

/-- The sentence-accumulation loop of `_create_strict_chunks` (pdf.py
lines 239–259); the state is (chunks so far, current buffer, sentences of
the current buffer). -/
def textLoop (page_num : Nat) :
    List String → List ChunkData → String → List String →
    List ChunkData × String × List String
  | [], chunks, cur, sents => (chunks, cur, sents)
  | s :: rest, chunks, cur, sents =>
    if 500 < cur.length + s.length then
      let chunks' :=
        if (pyStrip cur).isEmpty then chunks
        else chunks ++ [mkTextChunk page_num chunks.length cur sents]
      textLoop page_num rest chunks' s [s]
    else
      textLoop page_num rest chunks (cur ++ " " ++ s) (sents ++ [s])

/-- The final flush of the remaining buffer (pdf.py lines 262–274),
applied to the end state of `textLoop`. -/
def flushFinal (page_num : Nat) (st : List ChunkData × String × List String) :
    List ChunkData :=
  if (pyStrip st.2.1).isEmpty then st.1
  else st.1 ++ [mkTextChunk page_num st.1.length st.2.1 st.2.2]

/-- The text chunks of a page: the accumulation loop started on the
page's sentences with empty state, then the final flush. -/
def textChunks (page_num : Nat) (sentences : List String) : List ChunkData :=
  flushFinal page_num (textLoop page_num sentences [] "" [])

/-- The image chunk for one OCR block (pdf.py lines 277–290), skipped
when the OCR text strips to empty.  Note the id ends in `img.page`, not
in an image index. -/
def mkImageChunk (page_num : Nat) (img : ImageData) : Option ChunkData :=
  if (pyStrip img.text).isEmpty then none
  else some
    { chunk_id := "page_" ++ natRepr (page_num + 1) ++ "_image_" ++ natRepr img.page,
      text := "[IMAGE] " ++ img.text,
      page := page_num + 1,
      chunk_type := "image",
      metadata := .imageMeta img.bbox img.confidence img.text }

/-- The table chunk for one extracted table (pdf.py lines 293–308),
skipped when the formatted table text strips to empty.  Note the id ends
in `t.page`, not in a table index. -/
def mkTableChunk (page_num : Nat) (t : TableData) : Option ChunkData :=
  let table_text := format_table_text t
  if (pyStrip table_text).isEmpty then none
  else some
    { chunk_id := "page_" ++ natRepr (page_num + 1) ++ "_table_" ++ natRepr t.page,
      text := "[TABLE] " ++ table_text,
      page := page_num + 1,
      chunk_type := "table",
      metadata := .tableMeta t.bbox t.headers t.data.length t.data }

/-- `PDFProcessor._create_strict_chunks` (pdf.py lines 222–311): text
chunks accumulated sentence-by-sentence with a final flush, then one
chunk per OCR image block, then one per extracted table.  `page_num` is
the 0-based page index; every chunk is stamped with the 1-based page
number `page_num + 1`. -/
def create_strict_chunks (page_text : String) (page_num : Nat)
    (images_data : List ImageData) (tables_data : List TableData) : List ChunkData :=
  let chunks := textChunks page_num (split_into_sentences page_text)
  let chunks := chunks ++ images_data.filterMap (mkImageChunk page_num)
  chunks ++ tables_data.filterMap (mkTableChunk page_num)

/-- Specification predicate for C3: a chunk carries this page's 1-based
number, is a text chunk, and its recorded sentences all belong to the
sentence list `S` of this page. -/
def QText (page_num : Nat) (S : List String) (c : ChunkData) : Prop :=
  c.page = page_num + 1 ∧ c.chunk_type = "text" ∧
  ∃ ss wc cc, c.metadata = ChunkMeta.textMeta ss wc cc ∧ ∀ s ∈ ss, s ∈ S

/-! ## Helper lemmas: strings and stripping -/

theorem dropWhile_self_idem {p : Char → Bool} :
    ∀ l : List Char, List.dropWhile p (List.dropWhile p l) = List.dropWhile p l := by
  intro l
  induction l with
  | nil => rfl
  | cons c cs ih =>
    by_cases h : p c
    · simp [List.dropWhile_cons, h, ih]
    · simp [List.dropWhile_cons, h]

theorem dropWhile_shape {p : Char → Bool} (l : List Char) :
    List.dropWhile p l = [] ∨
      ∃ c cs, List.dropWhile p l = c :: cs ∧ p c = false := by
  induction l with
  | nil => exact Or.inl rfl
  | cons c cs ih =>
    by_cases h : p c
    · simpa [List.dropWhile_cons, h] using ih
    · exact Or.inr ⟨c, cs, by simp [List.dropWhile_cons, h], by simp [h]⟩

theorem dropTrail_cons_shape (c : Char) (cs : List Char) :
    dropTrail (c :: cs) = [] ∨ dropTrail (c :: cs) = [c] ∨
      dropTrail (c :: cs) = c :: dropTrail cs := by
  unfold dropTrail
  rw [show (c :: cs).reverse = cs.reverse ++ [c] by simp, List.dropWhile_append]
  by_cases h : (List.dropWhile isPySpace cs.reverse).isEmpty
  · by_cases h2 : isPySpace c
    · simp [h, List.dropWhile_cons, h2]
    · simp [h, List.dropWhile_cons, h2]
  · right; right; simp [h]

theorem dropTrail_idem : ∀ l : List Char, dropTrail (dropTrail l) = dropTrail l := by
  intro l
  unfold dropTrail
  rw [List.reverse_reverse, dropWhile_self_idem]

theorem dropWhile_dropTrail {l : List Char}
    (h : List.dropWhile isPySpace l = l) :
    List.dropWhile isPySpace (dropTrail l) = dropTrail l := by
  cases l with
  | nil => rfl
  | cons c cs =>
    have hc : isPySpace c = false := by
      by_contra hc
      have hc' : isPySpace c = true := by
        cases hpc : isPySpace c
        · exact absurd hpc hc
        · rfl
      have := congrArg List.length h
      rw [List.dropWhile_cons, hc'] at this
      have hle := (List.dropWhile_sublist (l := cs) isPySpace).length_le
      simp at this
      omega
    rcases dropTrail_cons_shape c cs with h1 | h1 | h1 <;> rw [h1]
    · rfl
    · simp [List.dropWhile_cons, hc]
    · simp [List.dropWhile_cons, hc]

theorem stripChars_idem (l : List Char) :
    stripChars (stripChars l) = stripChars l := by
  unfold stripChars
  rw [dropWhile_dropTrail (dropWhile_self_idem l), dropTrail_idem]

theorem pyStrip_mk_stripChars (l : List Char) :
    pyStrip ⟨stripChars l⟩ = (⟨stripChars l⟩ : String) := by
  unfold pyStrip
  exact congrArg String.mk (stripChars_idem l)

/-- Every sentence `_split_into_sentences` returns is already stripped. -/
theorem split_sentence_stripped {t : String} {s : String}
    (h : s ∈ split_into_sentences t) : pyStrip s = s := by
  unfold split_into_sentences at h
  rw [List.mem_filterMap] at h
  obtain ⟨raw, _, hraw⟩ := h
  by_cases he : (stripChars raw).isEmpty
  · simp [he] at hraw
  · simp only [he, if_neg] at hraw
    simp at hraw
    rw [← hraw]
    exact pyStrip_mk_stripChars raw

/-- Every sentence `_split_into_sentences` returns is non-empty. -/
theorem split_sentence_ne_empty {t : String} {s : String}
    (h : s ∈ split_into_sentences t) : s.data ≠ [] := by
  unfold split_into_sentences at h
  rw [List.mem_filterMap] at h
  obtain ⟨raw, _, hraw⟩ := h
  by_cases he : (stripChars raw).isEmpty
  · simp [he] at hraw
  · simp only [he, if_neg] at hraw
    simp at hraw
    rw [← hraw]
    simpa [List.isEmpty_iff] using he

/-- Every term `str.split()` returns is non-empty. -/
theorem splitWs_ne_empty : ∀ (l acc : List Char) (s : String),
    s ∈ splitWsAux l acc → s.data ≠ [] := by
  intro l
  induction l with
  | nil =>
    intro acc s hs
    by_cases h : acc.isEmpty
    · simp [splitWsAux, h] at hs
    · simp [splitWsAux, h] at hs
      rw [hs]
      simpa [List.isEmpty_iff] using h
  | cons c cs ih =>
    intro acc s hs
    by_cases h : isPySpace c
    · by_cases h2 : acc.isEmpty
      · rw [splitWsAux] at hs
        simp only [h, if_pos, h2] at hs
        exact ih [] s hs
      · rw [splitWsAux] at hs
        simp only [h, if_pos, h2, if_neg] at hs
        simp at hs
        rcases hs with hs | hs
        · rw [hs]; simpa [List.isEmpty_iff] using h2
        · exact ih [] s hs
    · rw [splitWsAux] at hs
      simp only [h] at hs
      exact ih (c :: acc) s hs

/-! ## Helper lemmas: decimal representations and composite keys -/

theorem insDesc_perm {α : Type} (f : α → ℚ) (a : α) :
    ∀ l : List α, (insDesc f a l).Perm (a :: l) := by
  intro l
  induction l with
  | nil => exact List.Perm.refl _
  | cons b l ih =>
    rw [insDesc]
    by_cases h : f b ≤ f a
    · simp [h]
    · simp only [h, if_neg, not_false_iff]
      exact (ih.cons b).trans (List.Perm.swap a b l)

theorem insDesc_mem {α : Type} (f : α → ℚ) (a x : α) (l : List α) :
    x ∈ insDesc f a l ↔ x = a ∨ x ∈ l := by
  rw [(insDesc_perm f a l).mem_iff, List.mem_cons]

theorem insDesc_pairwise {α : Type} (f : α → ℚ) (a : α) :
    ∀ l : List α, l.Pairwise (fun x y => f y ≤ f x) →
      (insDesc f a l).Pairwise (fun x y => f y ≤ f x) := by
  intro l
  induction l with
  | nil => intro; simp [insDesc]
  | cons b l ih =>
    intro h
    rw [List.pairwise_cons] at h
    obtain ⟨hb, hl⟩ := h
    rw [insDesc]
    by_cases hba : f b ≤ f a
    · simp only [hba, if_pos]
      rw [List.pairwise_cons]
      refine ⟨?_, List.pairwise_cons.mpr ⟨hb, hl⟩⟩
      intro y hy
      rcases List.mem_cons.mp hy with rfl | hy
      · exact hba
      · exact le_trans (hb y hy) hba
    · simp only [hba, if_neg, not_false_iff]
      rw [List.pairwise_cons]
      refine ⟨?_, ih hl⟩
      intro y hy
      rcases (insDesc_mem f a y l).mp hy with rfl | hy
      · exact le_of_lt (lt_of_not_le hba)
      · exact hb y hy

theorem sortDesc_perm {α : Type} (f : α → ℚ) :
    ∀ l : List α, (sortDesc f l).Perm l := by
  intro l
  induction l with
  | nil => exact List.Perm.refl _
  | cons a l ih => exact (insDesc_perm f a (sortDesc f l)).trans (ih.cons a)

theorem sortDesc_pairwise {α : Type} (f : α → ℚ) :
    ∀ l : List α, (sortDesc f l).Pairwise (fun x y => f y ≤ f x) := by
  intro l
  induction l with
  | nil => simp [sortDesc]
  | cons a l ih => exact insDesc_pairwise f a _ ih

/-! ## Helper lemmas: substring containment and counting -/

theorem listPre_iff (p : List Char) :
    ∀ l, listPre p l = true ↔ ∃ r, l = p ++ r := by
  induction p with
  | nil =>
    intro l
    simp [listPre]
  | cons a as ih =>
    intro l
    cases l with
    | nil =>
      simp [listPre]
    | cons b bs =>
      rw [listPre]
      simp only [Bool.and_eq_true, decide_eq_true_eq, ih]
      constructor
      · rintro ⟨rfl, r, rfl⟩
        exact ⟨r, rfl⟩
      · rintro ⟨r, hr⟩
        rw [List.cons_append] at hr
        injection hr with h1 h2
        exact ⟨h1.symm, r, h2⟩

theorem containsSub_iff {p : List Char} (hp : p ≠ []) :
    ∀ t, containsSub p t = true ↔ ∃ pre post, t = pre ++ p ++ post := by
  intro t
  induction t with
  | nil =>
    rw [containsSub]
    simp only [List.isEmpty_iff]
    constructor
    · intro h; exact absurd h hp
    · rintro ⟨pre, post, h⟩
      exact absurd (List.append_eq_nil.mp (List.append_eq_nil.mp h.symm).1).2.symm
        (by simpa using hp)
  | cons c cs ih =>
    rw [containsSub]
    simp only [Bool.or_eq_true, listPre_iff, ih]
    constructor
    · rintro (⟨r, hr⟩ | ⟨pre, post, h⟩)
      · exact ⟨[], r, by simpa using hr⟩
      · exact ⟨c :: pre, post, by simp [h]⟩
    · rintro ⟨pre, post, h⟩
      cases pre with
      | nil =>
        exact Or.inl ⟨post, by simpa using h⟩
      | cons d pre =>
        rw [List.cons_append, List.cons_append] at h
        injection h with h1 h2
        exact Or.inr ⟨pre, post, h2⟩

theorem countFromAux_pos_iff {p : List Char} (hp : p ≠ []) :
    ∀ f t, t.length ≤ f → (0 < countFromAux p f t ↔ containsSub p t = true) := by
  intro f
  induction f with
  | zero =>
    intro t ht
    rw [List.length_eq_zero.mp (Nat.le_zero.mp ht)]
    rw [countFromAux, containsSub]
    simp [List.isEmpty_iff, hp]
  | succ f ih =>
    intro t ht
    cases t with
    | nil =>
      rw [countFromAux, containsSub]
      simp [List.isEmpty_iff, hp]
    | cons c cs =>
      rw [countFromAux, containsSub]
      by_cases hpre : listPre p (c :: cs) = true
      · simp [hpre]
      · simp only [hpre, if_neg, not_false_iff, Bool.false_or]
        exact ih cs (by simpa using ht)

theorem countFrom_pos_iff {p : List Char} (hp : p ≠ []) (t : List Char) :
    0 < countFrom p t ↔ containsSub p t = true :=
  countFromAux_pos_iff hp t.length t le_rfl

theorem countFrom_eq_zero_of_not_contains {p : List Char} (hp : p ≠ [])
    {t : List Char} (h : containsSub p t = false) : countFrom p t = 0 := by
  by_contra hne
  have := (countFrom_pos_iff hp t).mp (Nat.pos_of_ne_zero hne)
  rw [h] at this
  cases this

/-! ## Helper lemmas: insertion-ordered dicts -/

theorem length_filterMap_countP {α β : Type} (f : α → Option β) (l : List α) :
    (l.filterMap f).length = l.countP (fun a => (f a).isSome) := by
  induction l with
  | nil => rfl
  | cons a l ih =>
    rw [List.filterMap_cons, List.countP_cons]
    cases hf : f a <;> simp [hf, ih]

theorem tfScore_eq_sum (terms : List String) (h : ∀ t ∈ terms, t.data ≠ [])
    (text : String) :
    tfScore terms text = (terms.map (fun t => countFrom t.data text.data)).sum := by
  unfold tfScore
  induction terms with
  | nil => rfl
  | cons a l ih =>
    rw [List.map_cons, List.map_cons, List.sum_cons, List.sum_cons,
      ih (fun t ht => h t (List.mem_cons_of_mem a ht))]
    by_cases hc : containsSub a.data text.data = true
    · rw [if_pos hc]
    · rw [if_neg hc,
        countFrom_eq_zero_of_not_contains (h a (List.mem_cons_self a l))
          (by revert hc; cases containsSub a.data text.data <;> simp)]

theorem tfScore_pos_term (terms : List String) (h : ∀ t ∈ terms, t.data ≠ [])
    (text : String) (hpos : 0 < tfScore terms text) :
    ∃ t ∈ terms, ∃ pre post, text.data = pre ++ t.data ++ post := by
  unfold tfScore at hpos
  by_contra hc
  push_neg at hc
  have hz : ∀ x ∈ terms.map (fun term =>
      if containsSub term.data text.data = true then countFrom term.data text.data
      else 0), x = 0 := by
    intro x hx
    rw [List.mem_map] at hx
    obtain ⟨t, ht, rfl⟩ := hx
    by_cases hcont : containsSub t.data text.data = true
    · exfalso
      obtain ⟨pre, post, hdec⟩ := (containsSub_iff (h t ht) text.data).mp hcont
      exact absurd hdec (hc t ht pre post)
    · rw [if_neg hcont]
  rw [List.sum_eq_zero hz] at hpos
  omega

/-- C7: `_bm25_search` returns, from the candidate pool, exactly the
candidates whose lowercase text contains at least one lowercase
whitespace-separated query term, each scored by the summed count of
occurrences of every query term in its lowercase text, sorted descending
by that score and truncated to the first `top_k` of the descending
order — the final conjunct shows every positively-scoring candidate the
truncation omits scores no more than any kept candidate; zero-score
candidates are excluded entirely. -/
theorem bm25_search_spec (query : String) (pool : List RawHit) (top_k : Nat) :
    (∀ r ∈ bm25_search query pool top_k, ∃ r0 ∈ pool,
      r = { r0 with
              score := ((tfScore (pySplitWs (pyLower query)) (pyLower r0.text) : Nat) : ℚ) } ∧
      0 < tfScore (pySplitWs (pyLower query)) (pyLower r0.text) ∧
      r.score = (((pySplitWs (pyLower query)).map
        (fun term => countFrom term.data (pyLower r0.text).data)).sum : ℚ) ∧
      ∃ term ∈ pySplitWs (pyLower query), ∃ pre post,
        (pyLower r0.text).data = pre ++ term.data ++ post) ∧
    (bm25_search query pool top_k).Pairwise (fun a b => b.score ≤ a.score) ∧
    (bm25_search query pool top_k).length =
      min top_k
        (pool.countP (fun r0 => 0 < tfScore (pySplitWs (pyLower query)) (pyLower r0.text))) ∧
    (∀ r0 ∈ pool, tfScore (pySplitWs (pyLower query)) (pyLower r0.text) = 0 →
      ∀ q : ℚ, { r0 with score := q } ∉ bm25_search query pool top_k) ∧
    (pool.countP (fun r0 => 0 < tfScore (pySplitWs (pyLower query)) (pyLower r0.text)) ≤
        top_k →
      ∀ r0 ∈ pool, 0 < tfScore (pySplitWs (pyLower query)) (pyLower r0.text) →
        { r0 with
            score := ((tfScore (pySplitWs (pyLower query)) (pyLower r0.text) : Nat) : ℚ) } ∈
          bm25_search query pool top_k) ∧
    (∀ r ∈ bm25_search query pool top_k, ∀ r0 ∈ pool,
      0 < tfScore (pySplitWs (pyLower query)) (pyLower r0.text) →
      { r0 with
          score := ((tfScore (pySplitWs (pyLower query)) (pyLower r0.text) : Nat) : ℚ) } ∉
        bm25_search query pool top_k →
      ((tfScore (pySplitWs (pyLower query)) (pyLower r0.text) : Nat) : ℚ) ≤ r.score) := by
  have hterm : ∀ t ∈ pySplitWs (pyLower query), t.data ≠ [] :=
    fun t ht => splitWs_ne_empty _ _ t ht
  have hout : bm25_search query pool top_k =
      (sortDesc (fun r => r.score)
        (pool.filterMap (fun result =>
          if 0 < tfScore (pySplitWs (pyLower query)) (pyLower result.text) then
            some { result with
              score := ((tfScore (pySplitWs (pyLower query)) (pyLower result.text) : Nat) : ℚ) }
          else none))).take top_k := rfl
  set terms := pySplitWs (pyLower query) with hterms
  set g : RawHit → Option RawHit := fun result =>
    if 0 < tfScore terms (pyLower result.text) then
      some { result with score := ((tfScore terms (pyLower result.text) : Nat) : ℚ) }
    else none with hg
  set scored := pool.filterMap g with hscored
  have hmem_scored : ∀ r, r ∈ scored ↔ ∃ r0 ∈ pool, g r0 = some r := by
    intro r
    rw [hscored, List.mem_filterMap]
  have hmem_out : ∀ r, r ∈ bm25_search query pool top_k → r ∈ scored := by
    intro r hr
    rw [hout] at hr
    have := (List.take_sublist top_k _).subset hr
    exact (sortDesc_perm (fun r => r.score) scored).mem_iff.mp this
  refine ⟨?_, ?_, ?_, ?_, ?_, ?_⟩
  · intro r hr
    obtain ⟨r0, hr0, hgr⟩ := (hmem_scored r).mp (hmem_out r hr)
    simp only [hg] at hgr
    by_cases htf : 0 < tfScore terms (pyLower r0.text)
    · rw [if_pos htf] at hgr
      have hreq := Option.some.inj hgr
      refine ⟨r0, hr0, hreq.symm, htf, ?_, ?_⟩
      · rw [← hreq]
        simp [tfScore_eq_sum terms hterm]
      · exact tfScore_pos_term terms hterm (pyLower r0.text) htf
    · rw [if_neg htf] at hgr
      cases hgr
  · rw [hout]
    exact List.Pairwise.sublist (List.take_sublist _ _)
      (sortDesc_pairwise (fun r => r.score) scored)
  · rw [hout, List.length_take,
      (sortDesc_perm (fun r => r.score) scored).length_eq, hscored,
      length_filterMap_countP]
    congr 1
    apply List.countP_congr
    intro r0 _
    rw [hg]
    by_cases htf : 0 < tfScore terms (pyLower r0.text)
    · simp [htf]
    · simp [htf]
  · intro r0 hr0 htf0 q hin
    obtain ⟨r1, hr1, hgr⟩ := (hmem_scored _).mp (hmem_out _ hin)
    simp only [hg] at hgr
    by_cases htf : 0 < tfScore terms (pyLower r1.text)
    · rw [if_pos htf] at hgr
      have hreq := Option.some.inj hgr
      have htext : r1.text = r0.text := by
        have := congrArg RawHit.text hreq
        simpa using this
      rw [htext] at htf
      omega
    · rw [if_neg htf] at hgr
      cases hgr
  · intro hcount r0 hr0 htf
    have hlen : scored.length ≤ top_k := by
      rw [hscored, length_filterMap_countP]
      calc pool.countP (fun a => (g a).isSome) =
          pool.countP (fun r1 => 0 < tfScore terms (pyLower r1.text)) := by
            apply List.countP_congr
            intro r1 _
            rw [hg]
            by_cases htf1 : 0 < tfScore terms (pyLower r1.text) <;> simp [htf1]
        _ ≤ top_k := hcount
    rw [hout, List.take_of_length_le
      (by rw [(sortDesc_perm (fun r => r.score) scored).length_eq]; exact hlen)]
    rw [(sortDesc_perm (fun r => r.score) scored).mem_iff]
    exact (hmem_scored _).mpr ⟨r0, hr0, by simp only [hg]; rw [if_pos htf]⟩
  · intro r hr r0 hr0 htf hnotin
    have hmem_sorted :
        { r0 with score := ((tfScore terms (pyLower r0.text) : Nat) : ℚ) } ∈
          sortDesc (fun r => r.score) scored := by
      rw [(sortDesc_perm (fun r => r.score) scored).mem_iff]
      exact (hmem_scored _).mpr ⟨r0, hr0, by simp only [hg]; rw [if_pos htf]⟩
    have hsplit : (sortDesc (fun r => r.score) scored).take top_k ++
        (sortDesc (fun r => r.score) scored).drop top_k =
        sortDesc (fun r => r.score) scored := List.take_append_drop _ _
    have hpw := sortDesc_pairwise (fun r => r.score) scored
    rw [← hsplit, List.pairwise_append] at hpw
    have hmem2 : { r0 with score := ((tfScore terms (pyLower r0.text) : Nat) : ℚ) } ∈
        (sortDesc (fun r => r.score) scored).take top_k ++
        (sortDesc (fun r => r.score) scored).drop top_k := by
      rw [hsplit]
      exact hmem_sorted
    rcases List.mem_append.mp hmem2 with h1 | h2
    · exact absurd (by rw [hout]; exact h1) hnotin
    · exact hpw.2.2 r (by rw [hout] at hr; exact hr) _ h2

/-! ## C6: fusion failure falls back to the vector ranking -/

/-- C6: whenever the body of `_reciprocal_rank_fusion` raises an
exception (modelled: the fallible body returns `none`, as it does
e.g. when a candidate's metadata lacks `doc_id` or `page`), the function
returns `vector_results[:top_k]` instead of propagating the error; being
a total function, it never aborts. -/
theorem rrf_fallback (keyOrder : List String) (vector_results bm25_results : List RawHit)
    (top_k : Nat) (h : rrfBody keyOrder vector_results bm25_results top_k = none) :
    reciprocal_rank_fusion keyOrder vector_results bm25_results top_k =
      vector_results.take top_k := by
  rw [reciprocal_rank_fusion, h]

/-- Witness for `rrf_fallback`: a vector candidate whose metadata lacks
`doc_id` makes the body fail, and fusion returns the truncated vector
list. -/
theorem rrf_fallback_witness :
    rrfBody [] [⟨"a", ⟨none, some 1⟩, 0⟩, ⟨"b", ⟨some "d", some 2⟩, 0⟩] [] 1 = none ∧
    reciprocal_rank_fusion [] [⟨"a", ⟨none, some 1⟩, 0⟩, ⟨"b", ⟨some "d", some 2⟩, 0⟩] [] 1 =
      List.take 1 [⟨"a", ⟨none, some 1⟩, 0⟩, ⟨"b", ⟨some "d", some 2⟩, 0⟩] :=
  ⟨by decide, rrf_fallback _ _ _ _ (by decide)⟩

/-! ## C5: empty retrieval returns the fixed refusal -/

/-- C5: invoked with an empty passage list, `generate_answer` returns the
fixed refusal answer with no citations, grounding score `0.0` and
retrieval quality `"no_results"` — identically for every LLM oracle
`llm`, which shows the answer-generation provider is never consulted;
the early return also precedes the call to the citation extractor. -/
theorem generate_answer_empty (llm : String → String → String) (query : String) :
    generate_answer llm query [] =
      { answer := refusalAnswer, citations := [], grounding_score := 0,
        retrieval_quality := "no_results" } := rfl

/-! ## C8: the grounding-score formula and its bounds -/

theorem grounding_bounds (c m : Nat) :
    0 ≤ (if 0 < m then min 1 ((c : ℚ) / (m : ℚ) * (8 / 10) + 2 / 10) else 0) ∧
    (if 0 < m then min 1 ((c : ℚ) / (m : ℚ) * (8 / 10) + 2 / 10) else 0) ≤ 1 := by
  by_cases hm : 0 < m
  · rw [if_pos hm]
    constructor
    · apply le_min
      · norm_num
      · positivity
    · exact min_le_left _ _
  · rw [if_neg hm]
    norm_num

/-- C8: for every non-empty passage list, the grounding score equals
`min(1.0, (citation_count / min(passage_count, 5)) * 0.8 + 0.2)` when
`min(passage_count, 5) > 0` and `0.0` otherwise, where `citation_count`
counts the extracted citations; consequently it always lies in
`[0.0, 1.0]`. -/
theorem grounding_score_spec (llm : String → String → String) (query : String)
    (search_results : List Passage) (hne : search_results ≠ []) :
    (generate_answer llm query search_results).grounding_score =
      (if 0 < min search_results.length 5 then
        min 1 (((generate_answer llm query search_results).citations.length : ℚ) /
          ((min search_results.length 5 : Nat) : ℚ) * (8 / 10) + 2 / 10)
      else 0) ∧
    0 ≤ (generate_answer llm query search_results).grounding_score ∧
    (generate_answer llm query search_results).grounding_score ≤ 1 := by
  obtain ⟨p, rest, rfl⟩ : ∃ p rest, search_results = p :: rest := by
    cases search_results with
    | nil => exact absurd rfl hne
    | cons p rest => exact ⟨p, rest, rfl⟩
  have h1 : (generate_answer llm query (p :: rest)).grounding_score =
      if 0 < min (p :: rest).length 5 then
        min 1 (((generate_answer llm query (p :: rest)).citations.length : ℚ) /
          ((min (p :: rest).length 5 : Nat) : ℚ) * (8 / 10) + 2 / 10)
      else 0 := rfl
  refine ⟨h1, ?_, ?_⟩ <;> rw [h1]
  · exact (grounding_bounds _ _).1
  · exact (grounding_bounds _ _).2

/-- Witness for `grounding_score_spec` at a concrete passage list and a
concrete oracle. -/
theorem grounding_score_spec_witness :
    (([(⟨"d", 1, "t", 0, none, "", ""⟩ : Passage)] : List Passage) ≠ []) ∧
    0 ≤ (generate_answer (fun _ _ => "x [p.1]") "q"
        [(⟨"d", 1, "t", 0, none, "", ""⟩ : Passage)]).grounding_score ∧
    (generate_answer (fun _ _ => "x [p.1]") "q"
        [(⟨"d", 1, "t", 0, none, "", ""⟩ : Passage)]).grounding_score ≤ 1 :=
  ⟨List.cons_ne_nil _ _,
    (grounding_score_spec (fun _ _ => "x [p.1]") "q"
      [(⟨"d", 1, "t", 0, none, "", ""⟩ : Passage)] (List.cons_ne_nil _ _)).2⟩

/-! ## C1: citation extraction -/

theorem extract_pages_aux (search_results : List Passage) :
    ∀ ms : List Nat,
      ((ms.filterMap (fun page =>
        (search_results.find? (fun result => result.page == Int.ofNat page)).map
          (mkCitation page))).map (fun c => c.page)) =
      ((ms.filter (fun n => search_results.any (fun r => r.page == Int.ofNat n))).map
        Int.ofNat) := by
  intro ms
  induction ms with
  | nil => rfl
  | cons n ms ih =>
    rw [List.filterMap_cons, List.filter_cons]
    cases hfind : search_results.find? (fun result => result.page == Int.ofNat n) with
    | none =>
      have hany : (search_results.any fun r => r.page == Int.ofNat n) = false := by
        rw [List.any_eq_false]
        intro r hr
        have := List.find?_eq_none.mp hfind r hr
        simpa using this
      rw [hany]
      simpa using ih
    | some r =>
      have hpr : (r.page == Int.ofNat n) = true := by
        exact @List.find?_some Passage (fun result => result.page == Int.ofNat n)
          r search_results hfind
      have hany : (search_results.any fun r => r.page == Int.ofNat n) = true := by
        rw [List.any_eq_true]
        exact ⟨r, List.mem_of_find?_eq_some hfind, hpr⟩
      rw [hany]
      simp only [Option.map_some', List.map_cons, if_pos]
      rw [ih]
      have hpage : (mkCitation n r).page = Int.ofNat n := rfl
      rw [hpage]

/-- C1: on any answer text and non-empty passage list,
`_extract_citations` emits, in order of marker appearance, exactly one
citation per `[p.N]` marker whose page `N` matches some supplied
passage (no deduplication), built from the first passage of that page;
unmatched markers are dropped without error.  Each citation's quote is
the passage text unchanged when at most 200 characters, and its first
200 characters plus `"..."` (203 characters) when longer, and every
citation's page equals the page of some supplied passage. -/
theorem extract_citations_spec (answer : String) (search_results : List Passage)
    (hne : search_results ≠ []) :
    ((extract_citations answer search_results).map (fun c => c.page) =
      ((findMarkers answer).filter
        (fun n => search_results.any (fun r => r.page == Int.ofNat n))).map Int.ofNat) ∧
    (∀ c ∈ extract_citations answer search_results,
      ∃ n ∈ findMarkers answer, ∃ r,
        search_results.find? (fun x => x.page == Int.ofNat n) = some r ∧
        c = mkCitation n r ∧
        (r.text.length ≤ 200 → c.quote = r.text) ∧
        (200 < r.text.length → c.quote.length = 203 ∧
          c.quote = (⟨r.text.data.take 200⟩ : String) ++ "...")) ∧
    (∀ c ∈ extract_citations answer search_results,
      ∃ r ∈ search_results, r.page = c.page) := by
  refine ⟨extract_pages_aux search_results (findMarkers answer), ?_, ?_⟩
  · intro c hc
    rw [extract_citations, List.mem_filterMap] at hc
    obtain ⟨n, hn, hgn⟩ := hc
    cases hfind : search_results.find? (fun x => x.page == Int.ofNat n) with
    | none => rw [hfind] at hgn; cases hgn
    | some r =>
      rw [hfind] at hgn
      have hc : c = mkCitation n r := (Option.some.inj hgn).symm
      refine ⟨n, hn, r, hfind, hc, ?_, ?_⟩
      · intro hlen
        rw [hc]
        show mkQuote r.text = r.text
        rw [mkQuote, if_neg (by omega)]
      · intro hlen
        rw [hc]
        have hq : (mkCitation n r).quote =
            (⟨r.text.data.take 200⟩ : String) ++ "..." := by
          show mkQuote r.text = _
          rw [mkQuote, if_pos hlen]
        refine ⟨?_, hq⟩
        rw [hq, String.length_append]
        have h200 : (⟨r.text.data.take 200⟩ : String).length = 200 := by
          show (r.text.data.take 200).length = 200
          rw [List.length_take]
          have : 200 < r.text.data.length := hlen
          omega
        rw [h200]
        rfl
  · intro c hc
    rw [extract_citations, List.mem_filterMap] at hc
    obtain ⟨n, hn, hgn⟩ := hc
    cases hfind : search_results.find? (fun x => x.page == Int.ofNat n) with
    | none => rw [hfind] at hgn; cases hgn
    | some r =>
      rw [hfind] at hgn
      have hc : c = mkCitation n r := (Option.some.inj hgn).symm
      refine ⟨r, List.mem_of_find?_eq_some hfind, ?_⟩
      have hpage : r.page = Int.ofNat n := by
        have := List.find?_some hfind
        rwa [beq_iff_eq] at this
      rw [hc, hpage]
      rfl

/-- Witness for `extract_citations_spec`: the spec's own end-to-end
example (two matched markers, one unmatched). -/
theorem extract_citations_spec_witness :
    (([(⟨"d", 1, "Mitosis has four phases.", 0, none, "pu", "su"⟩ : Passage),
       (⟨"d", 3, "Meiosis produces gametes.", 0, none, "pv", "sv"⟩ : Passage)] :
        List Passage) ≠ []) ∧
    (∀ c ∈ extract_citations
        "Mitosis has four phases [p.1]. Meiosis produces gametes [p.3]. More [p.9]."
        [(⟨"d", 1, "Mitosis has four phases.", 0, none, "pu", "su"⟩ : Passage),
         (⟨"d", 3, "Meiosis produces gametes.", 0, none, "pv", "sv"⟩ : Passage)],
      ∃ r ∈ ([(⟨"d", 1, "Mitosis has four phases.", 0, none, "pu", "su"⟩ : Passage),
              (⟨"d", 3, "Meiosis produces gametes.", 0, none, "pv", "sv"⟩ : Passage)] :
          List Passage), r.page = c.page) :=
  ⟨List.cons_ne_nil _ _,
    (extract_citations_spec
      "Mitosis has four phases [p.1]. Meiosis produces gametes [p.3]. More [p.9]."
      [(⟨"d", 1, "Mitosis has four phases.", 0, none, "pu", "su"⟩ : Passage),
       (⟨"d", 3, "Meiosis produces gametes.", 0, none, "pv", "sv"⟩ : Passage)]
      (List.cons_ne_nil _ _)).2.2⟩

/-! ## C3 and C10: the chunker -/

theorem mkTextChunk_q (page_num : Nat) (S : List String) (nchunks : Nat)
    (cur : String) (sents : List String) (hs : ∀ s ∈ sents, s ∈ S) :
    QText page_num S (mkTextChunk page_num nchunks cur sents) :=
  ⟨rfl, rfl, sents, _, _, rfl, hs⟩

theorem textLoop_mem_q (page_num : Nat) (S : List String) :
    ∀ (rest : List String) (chunks : List ChunkData) (cur : String) (sents : List String),
      (∀ s ∈ rest, s ∈ S) → (∀ s ∈ sents, s ∈ S) →
      (∀ c ∈ chunks, QText page_num S c) →
      ∀ c ∈ flushFinal page_num (textLoop page_num rest chunks cur sents),
        QText page_num S c := by
  intro rest
  induction rest with
  | nil =>
    intro chunks cur sents hrest hsents hchunks c hc
    rw [textLoop, flushFinal] at hc
    by_cases hemp : (pyStrip cur).isEmpty
    · rw [if_pos hemp] at hc
      exact hchunks c hc
    · rw [if_neg hemp] at hc
      rcases List.mem_append.mp hc with hc | hc
      · exact hchunks c hc
      · rw [List.mem_singleton] at hc
        rw [hc]
        exact mkTextChunk_q page_num S _ _ _ hsents
  | cons s rest ih =>
    intro chunks cur sents hrest hsents hchunks c hc
    rw [textLoop] at hc
    by_cases hlen : 500 < cur.length + s.length
    · rw [if_pos hlen] at hc
      refine ih _ _ _ (fun x hx => hrest x (List.mem_cons_of_mem s hx))
        (fun x hx => hrest x (by rw [List.mem_singleton] at hx; rw [hx]; exact List.mem_cons_self s rest))
        ?_ c hc
      intro c2 hc2
      by_cases hemp : (pyStrip cur).isEmpty
      · rw [if_pos hemp] at hc2
        exact hchunks c2 hc2
      · rw [if_neg hemp] at hc2
        rcases List.mem_append.mp hc2 with hc2 | hc2
        · exact hchunks c2 hc2
        · rw [List.mem_singleton] at hc2
          rw [hc2]
          exact mkTextChunk_q page_num S _ _ _ hsents
    · rw [if_neg hlen] at hc
      refine ih _ _ _ (fun x hx => hrest x (List.mem_cons_of_mem s hx)) ?_ hchunks c hc
      intro x hx
      rcases List.mem_append.mp hx with hx | hx
      · exact hsents x hx
      · rw [List.mem_singleton] at hx
        rw [hx]
        exact hrest s (List.mem_cons_self s rest)

/-- C3: every chunk `_create_strict_chunks` derives for a page with
0-based index `page_num` — text, image or table — carries the 1-based
page number `page_num + 1`; moreover every text chunk is assembled only
from sentences of this page's own sentence list, so no chunk combines
content from two different pages (the function receives a single page's
text, OCR blocks and tables). -/
theorem chunk_page_invariant (page_text : String) (page_num : Nat)
    (images_data : List ImageData) (tables_data : List TableData) :
    ∀ c ∈ create_strict_chunks page_text page_num images_data tables_data,
      c.page = page_num + 1 ∧
      (c.chunk_type = "text" ∨ c.chunk_type = "image" ∨ c.chunk_type = "table") ∧
      (c.chunk_type = "text" →
        ∃ ss wc cc, c.metadata = ChunkMeta.textMeta ss wc cc ∧
          ∀ s ∈ ss, s ∈ split_into_sentences page_text) := by
  intro c hc
  rw [create_strict_chunks] at hc
  rcases List.mem_append.mp hc with hc | hc
  · rcases List.mem_append.mp hc with hc | hc
    · obtain ⟨hpage, htype, hmeta⟩ :=
        textLoop_mem_q page_num (split_into_sentences page_text)
          (split_into_sentences page_text) [] "" []
          (fun x hx => hx) (fun x hx => by cases hx) (fun c2 hc2 => by cases hc2) c hc
      exact ⟨hpage, Or.inl htype, fun _ => hmeta⟩
    · rw [List.mem_filterMap] at hc
      obtain ⟨img, _, himg⟩ := hc
      rw [mkImageChunk] at himg
      by_cases hemp : (pyStrip img.text).isEmpty
      · rw [if_pos hemp] at himg
        cases himg
      · rw [if_neg hemp] at himg
        have := Option.some.inj himg
        rw [← this]
        refine ⟨rfl, Or.inr (Or.inl rfl), fun h => ?_⟩
        have h2 : "image" = "text" := h
        exact absurd h2 (by decide)
  · rw [List.mem_filterMap] at hc
    obtain ⟨t, _, ht⟩ := hc
    rw [mkTableChunk] at ht
    by_cases hemp : (pyStrip (format_table_text t)).isEmpty
    · rw [if_pos hemp] at ht
      cases ht
    · rw [if_neg hemp] at ht
      have := Option.some.inj ht
      rw [← this]
      refine ⟨rfl, Or.inr (Or.inr rfl), fun h => ?_⟩
      have h2 : "table" = "text" := h
      exact absurd h2 (by decide)

/-- Witness for `chunk_page_invariant`: the single text chunk of the
one-sentence page "Hello." with 0-based index 4. -/
theorem chunk_page_invariant_witness :
    ((⟨"page_5_text_0", "Hello", 5, "text",
        ChunkMeta.textMeta ["Hello"] 1 6⟩ : ChunkData) ∈
      create_strict_chunks "Hello." 4 [] []) ∧
    ((⟨"page_5_text_0", "Hello", 5, "text",
        ChunkMeta.textMeta ["Hello"] 1 6⟩ : ChunkData).page = 4 + 1 ∧
      ((⟨"page_5_text_0", "Hello", 5, "text",
          ChunkMeta.textMeta ["Hello"] 1 6⟩ : ChunkData).chunk_type = "text" ∨
        (⟨"page_5_text_0", "Hello", 5, "text",
          ChunkMeta.textMeta ["Hello"] 1 6⟩ : ChunkData).chunk_type = "image" ∨
        (⟨"page_5_text_0", "Hello", 5, "text",
          ChunkMeta.textMeta ["Hello"] 1 6⟩ : ChunkData).chunk_type = "table") ∧
      ((⟨"page_5_text_0", "Hello", 5, "text",
          ChunkMeta.textMeta ["Hello"] 1 6⟩ : ChunkData).chunk_type = "text" →
        ∃ ss wc cc,
          (⟨"page_5_text_0", "Hello", 5, "text",
            ChunkMeta.textMeta ["Hello"] 1 6⟩ : ChunkData).metadata =
              ChunkMeta.textMeta ss wc cc ∧
          ∀ s ∈ ss, s ∈ split_into_sentences "Hello.")) :=
  ⟨by decide, chunk_page_invariant "Hello." 4 [] [] _ (by decide)⟩

/-! ## C4: image/table chunk ids collide on a page -/

/-- C4 (failing input): on page index 0 with two OCR image blocks (both
tagged with the page's 1-based number 1, as `_extract_images_with_ocr`
always does), `_create_strict_chunks` gives BOTH image chunks the same
id `"page_1_image_1"`, because the id is built from `img_data.page`
instead of an image index (pdf.py line 280); the chunk_id list is not
duplicate-free. -/
theorem chunk_id_collision :
    ((create_strict_chunks "" 0
        [⟨1, (0, 0, 0, 0), "cat", 0⟩, ⟨1, (0, 0, 0, 0), "dog", 0⟩] []).map
      (fun c => c.chunk_id)) = ["page_1_image_1", "page_1_image_1"] ∧
    ¬ ((create_strict_chunks "" 0
        [⟨1, (0, 0, 0, 0), "cat", 0⟩, ⟨1, (0, 0, 0, 0), "dog", 0⟩] []).map
      (fun c => c.chunk_id)).Nodup := by
  constructor
  · decide
  · decide

/-! ## C10: the 500-character maximum is not a hard bound -/

theorem textLoop_chunks_persist (page_num : Nat) :
    ∀ (rest : List String) (chunks : List ChunkData) (cur : String)
      (sents : List String) (c : ChunkData), c ∈ chunks →
      c ∈ flushFinal page_num (textLoop page_num rest chunks cur sents) := by
  intro rest
  induction rest with
  | nil =>
    intro chunks cur sents c hc
    rw [textLoop, flushFinal]
    by_cases hemp : (pyStrip cur).isEmpty
    · rw [if_pos hemp]
      exact hc
    · rw [if_neg hemp]
      exact List.mem_append_left _ hc
  | cons s rest ih =>
    intro chunks cur sents c hc
    rw [textLoop]
    by_cases hlen : 500 < cur.length + s.length
    · rw [if_pos hlen]
      by_cases hemp : (pyStrip cur).isEmpty
      · rw [if_pos hemp]
        exact ih _ _ _ c hc
      · rw [if_neg hemp]
        exact ih _ _ _ c (List.mem_append_left _ hc)
    · rw [if_neg hlen]
      exact ih _ _ _ c hc

theorem string_ne_empty_of_length {s : String} (h : 0 < s.length) :
    ¬ s.isEmpty := by
  rw [String.isEmpty_iff]
  intro heq
  rw [heq] at h
  exact absurd h (by decide)

theorem textLoop_big_cur (page_num : Nat) (cur : String)
    (hlen : 500 < cur.length) (hstrip : pyStrip cur = cur) :
    ∀ (rest : List String) (chunks : List ChunkData) (sents : List String),
      ∃ c ∈ flushFinal page_num (textLoop page_num rest chunks cur sents),
        c.chunk_type = "text" ∧ c.text = cur := by
  have hne : ¬ (pyStrip cur).isEmpty := by
    rw [hstrip]
    exact string_ne_empty_of_length (by omega)
  intro rest
  cases rest with
  | nil =>
    intro chunks sents
    rw [textLoop, flushFinal, if_neg hne]
    exact ⟨mkTextChunk page_num chunks.length cur sents,
      List.mem_append_right _ (List.mem_singleton_self _), rfl, hstrip⟩
  | cons s2 rest =>
    intro chunks sents
    rw [textLoop, if_pos (by omega : 500 < cur.length + s2.length), if_neg hne]
    exact ⟨mkTextChunk page_num chunks.length cur sents,
      textLoop_chunks_persist page_num rest _ s2 [s2] _
        (List.mem_append_right _ (List.mem_singleton_self _)),
      rfl, hstrip⟩

theorem textLoop_reaches (page_num : Nat) (s : String)
    (hlen : 500 < s.length) (hstrip : pyStrip s = s) :
    ∀ (sentences : List String) (chunks : List ChunkData) (cur : String)
      (sents : List String), s ∈ sentences →
      ∃ c ∈ flushFinal page_num (textLoop page_num sentences chunks cur sents),
        c.chunk_type = "text" ∧ c.text = s := by
  intro sentences
  induction sentences with
  | nil => intro _ _ _ h; cases h
  | cons s2 rest ih =>
    intro chunks cur sents hmem
    rcases List.mem_cons.mp hmem with rfl | hmem
    · rw [textLoop, if_pos (by omega : 500 < cur.length + s.length)]
      by_cases hemp : (pyStrip cur).isEmpty
      · rw [if_pos hemp]
        exact textLoop_big_cur page_num s hlen hstrip rest chunks [s]
      · rw [if_neg hemp]
        exact textLoop_big_cur page_num s hlen hstrip rest _ [s]
    · rw [textLoop]
      by_cases hcond : 500 < cur.length + s2.length
      · rw [if_pos hcond]
        by_cases hemp : (pyStrip cur).isEmpty
        · rw [if_pos hemp]
          exact ih _ _ _ hmem
        · rw [if_neg hemp]
          exact ih _ _ _ hmem
      · rw [if_neg hcond]
        exact ih _ _ _ hmem

/-- C10: the 500-character maximum is not a hard bound on text-chunk
size: whenever the sentence splitter yields a sentence longer than 500
characters, `_create_strict_chunks` emits a text chunk whose text is
exactly that sentence, hence longer than 500 characters — the size check
only prevents appending a further sentence, and a single sentence is
never split. -/
theorem oversize_sentence_chunk (page_text : String) (page_num : Nat)
    (images_data : List ImageData) (tables_data : List TableData)
    (s : String) (hmem : s ∈ split_into_sentences page_text)
    (hlen : 500 < s.length) :
    ∃ c ∈ create_strict_chunks page_text page_num images_data tables_data,
      c.chunk_type = "text" ∧ c.text = s ∧ 500 < c.text.length := by
  have hstrip := split_sentence_stripped hmem
  obtain ⟨c, hc, htype, htext⟩ :=
    textLoop_reaches page_num s hlen hstrip
      (split_into_sentences page_text) [] "" [] hmem
  refine ⟨c, ?_, htype, htext, by rw [htext]; exact hlen⟩
  rw [create_strict_chunks]
  exact List.mem_append_left _ (List.mem_append_left _ hc)

set_option maxRecDepth 20000 in
/-- Witness for `oversize_sentence_chunk`: a page whose text is a single
501-character sentence. -/
theorem oversize_sentence_chunk_witness :
    ((⟨List.replicate 501 'a'⟩ : String) ∈
      split_into_sentences (⟨List.replicate 501 'a'⟩ : String)) ∧
    500 < (⟨List.replicate 501 'a'⟩ : String).length ∧
    ∃ c ∈ create_strict_chunks (⟨List.replicate 501 'a'⟩ : String) 0 [] [],
      c.chunk_type = "text" ∧ c.text = (⟨List.replicate 501 'a'⟩ : String) ∧
      500 < c.text.length :=
  ⟨by decide, by decide,
    oversize_sentence_chunk (⟨List.replicate 501 'a'⟩ : String) 0 [] []
      (⟨List.replicate 501 'a'⟩ : String) (by decide) (by decide)⟩

/-! ## C2: reciprocal rank fusion -/

end CramBrain
